import Mathlib

/-!
Shallow embedding of the rate-limiting, pagination, batch-sync and
cross-linking logic of the `met` repository (two near-identical ETL
pipelines, `src/bitbucket` and `src/sonarcloud`).

Modelling conventions:
* Timestamps (`time.time()` / `datetime.now()`) live on a single
  logical clock for both Python clocks, modelled as integers (`Int`):
  the source only adds, subtracts, compares and takes min/max of
  timestamps and of the integral constants 3600, 60, 2^k and header
  values, so restricting the float clock to integral instants preserves
  every computation relevant to the claims.
* The wrapped asynchronous operation of a limiter is abstracted by a
  function `opOk : Nat → Bool` giving the success of each attempt
  (indexed the way the source indexes its loop variable); operations
  take zero time, while sleeps advance the clock by the slept amount.
* Executions are sequential (one caller), matching the cooperative,
  single-task call sites; the `asyncio.Semaphore` is then never
  contended and is not modelled beyond that.
* Python exceptions are explicit outcome flags / `Option` results.
-/

/-- One decimal digit. -/
def digitVal (c : Char) : Option Nat :=
  if c.isDigit then some (c.toNat - ('0').toNat) else none

/-- A nonempty all-digit run, as a number. -/
def parseDigits (s : List Char) : Option Nat :=
  match s with
  | [] => none
  | _ =>
    s.foldl (fun acc c => acc.bind (fun n => (digitVal c).map (fun d => n * 10 + d)))
      (some 0)

/-- Parse of Python `int(str)` over strings as character lists
(`ValueError` becomes `none`): surrounding whitespace is stripped, an
optional sign precedes a nonempty digit run. -/
def pyParseInt (s : List Char) : Option Int :=
  let t := ((s.dropWhile Char.isWhitespace).reverse.dropWhile Char.isWhitespace).reverse
  match t with
  | '-' :: rest => (parseDigits rest).map (fun n => -(n : Int))
  | '+' :: rest => (parseDigits rest).map (fun n => (n : Int))
  | _ => (parseDigits t).map (fun n => (n : Int))

namespace Bitbucket

/-- The `RateLimitInfo` dataclass of `src/bitbucket/src/utils/rate_limiter.py`. -/
structure RateLimitInfo where
  limit : Int
  remaining : Int
  reset_time : Int
  retry_after : Option Int
deriving Repr, DecidableEq

/-- Mutable state of the Bitbucket `RateLimiter` (constructor fields and
the attributes set in `__init__`). `request_times` models the
`deque(maxlen=max_requests_per_hour)`; its head is the oldest entry. -/
structure BBLimiter where
  max_requests_per_hour : Nat
  burst_limit : Nat
  retry_attempts : Nat
  request_times : List Int
  current_burst : Int
  rate_limit_info : Option RateLimitInfo
  last_request_time : Int
deriving Repr, DecidableEq

/-- Embeds `RateLimiter.__init__`. -/
def BBLimiter.init (maxReq burstLim retries : Nat) : BBLimiter :=
  { max_requests_per_hour := maxReq
    burst_limit := burstLim
    retry_attempts := retries
    request_times := []
    current_burst := 0
    rate_limit_info := none
    last_request_time := 0 }

/-- Append on a `collections.deque(maxlen := maxlen)`: appending to a
full deque evicts from the opposite (oldest) end. -/
def dequeAppend (maxlen : Nat) (xs : List Int) (x : Int) : List Int :=
  let ys := xs ++ [x]
  ys.drop (ys.length - maxlen)

/-- First guard of `_can_make_request`: a server-reported limit is active
(`remaining <= 0` and `now < reset_time`). -/
def BBLimiter.api_limit_active (s : BBLimiter) (now : Int) : Bool :=
  match s.rate_limit_info with
  | some info => decide (info.remaining ≤ 0) && decide (now < info.reset_time)
  | none => false

/-- Second guard of `_can_make_request`: the local window holds at least
`max_requests_per_hour` entries and the oldest is younger than 3600 s.
(The source indexes `request_times[0]`; with an empty deque that line is
unreachable unless `max_requests_per_hour = 0`, in which case Python
would raise — the `none` branch returns `false` and is never relied on
by the theorems below.) -/
def BBLimiter.local_limit_reached (s : BBLimiter) (now : Int) : Bool :=
  decide (s.max_requests_per_hour ≤ s.request_times.length) &&
    (match s.request_times.head? with
     | some oldest => decide (now - oldest < 3600)
     | none => false)

/-- Embeds `RateLimiter._can_make_request`. -/
def BBLimiter.can_make_request (s : BBLimiter) (now : Int) : Bool :=
  !s.api_limit_active now && !s.local_limit_reached now &&
    !decide ((s.burst_limit : Int) ≤ s.current_burst)

/-- The wait duration computed (and slept) by `RateLimiter._wait_if_needed`:
the max of the server `retry_after` (when truthy, i.e. present and
nonzero) and the time until the oldest local entry ages out of the
3600 s window. -/
def BBLimiter.wait_if_needed_duration (s : BBLimiter) (now : Int) : Int :=
  let wait0 : Int := 0
  let wait1 : Int :=
    match s.rate_limit_info with
    | some info =>
      match info.retry_after with
      | some ra => if ra ≠ 0 then max wait0 (ra : Int) else wait0
      | none => wait0
    | none => wait0
  if s.max_requests_per_hour ≤ s.request_times.length then
    match s.request_times.head? with
    | some oldest =>
      if now - oldest < 3600 then max wait1 (3600 - (now - oldest)) else wait1
    | none => wait1
  else wait1

/-- Embeds `RateLimiter._record_request`. -/
def BBLimiter.record_request (s : BBLimiter) (now : Int) : BBLimiter :=
  { s with
    request_times := dequeAppend s.max_requests_per_hour s.request_times now
    current_burst := s.current_burst + 1
    last_request_time := now }

/-- Embeds `RateLimiter._release_burst_slot` (`max(0, current_burst - 1)`). -/
def BBLimiter.release_burst_slot (s : BBLimiter) : BBLimiter :=
  { s with current_burst := max 0 (s.current_burst - 1) }

/-- Response headers fed to `_update_rate_limit_info`, as the raw
(optional) string values of the four consumed header names. -/
structure Headers where
  x_rate_limit_limit : Option (List Char)
  x_rate_limit_remaining : Option (List Char)
  x_rate_limit_reset : Option (List Char)
  retry_after_header : Option (List Char)
deriving Repr, DecidableEq

/-- Header parsing of `RateLimiter._update_rate_limit_info`: absent
limit/remaining default to `max_requests_per_hour`; an absent or empty
reset defaults to `now + 3600`; retry-after is `None` unless the header
is truthy; any `int()` failure aborts the whole update (`none`). -/
def parse_count_header (defaultMax : Nat) (o : Option (List Char)) : Option Int :=
  match o with
  | some v => pyParseInt v
  | none => some (defaultMax : Int)

/-- The `X-RateLimit-Reset` parsing: absent or empty defaults to `now + 3600`
(one hour), otherwise `int()` of the header. -/
def parse_reset_header (now : Int) (o : Option (List Char)) : Option Int :=
  match o with
  | some v => if v = [] then some (now + 3600) else pyParseInt v
  | none => some (now + 3600)

/-- The `Retry-After` parsing: `int(retry_after) if retry_after else None`. -/
def parse_retry_header (o : Option (List Char)) : Option (Option Int) :=
  match o with
  | some v => if v = [] then some none else (pyParseInt v).map some
  | none => some none

def parse_rate_limit_headers (defaultMax : Nat) (h : Headers) (now : Int) :
    Option RateLimitInfo :=
  match parse_count_header defaultMax h.x_rate_limit_limit,
      parse_count_header defaultMax h.x_rate_limit_remaining,
      parse_reset_header now h.x_rate_limit_reset,
      parse_retry_header h.retry_after_header with
  | some l, some r, some rt, some ra =>
    some { limit := l, remaining := r, reset_time := rt, retry_after := ra }
  | _, _, _, _ => none

/-- Embeds `RateLimiter._update_rate_limit_info`: on a parse failure the state
is left unchanged (the source catches `ValueError`/`TypeError`). -/
def BBLimiter.update_rate_limit_info (s : BBLimiter) (h : Headers) (now : Int) :
    BBLimiter :=
  match parse_rate_limit_headers s.max_requests_per_hour h now with
  | some info => { s with rate_limit_info := some info }
  | none => s

end Bitbucket

namespace Bitbucket

/-- Observable trace of one `execute_with_rate_limit` call: the limiter
state, the logical clock, how many times the wrapped operation was
invoked, the exponential-backoff sleeps in order, the value of
`current_burst` at the instant each invocation starts, the value of
`current_burst` after every mutation of that counter, and how the call
ended (`raised` re-raise vs `got_result` return; both `false` means the
`for` loop was exhausted without running, so Python returned `None`). -/
structure BBExecTrace where
  limiter : BBLimiter
  now : Int
  invocations : Nat
  backoffs : List Int
  burst_at_invoke : List Int
  burst_trace : List Int
  raised : Bool
  got_result : Bool
deriving Repr

/-- The clock after the admission phase of one loop iteration: when
`_can_make_request` refuses, `_wait_if_needed` blocks for the computed
duration. -/
def bb_wait_clock (tr : BBExecTrace) : Int :=
  tr.now + (if tr.limiter.can_make_request tr.now then 0
    else tr.limiter.wait_if_needed_duration tr.now)

/-- Successful iteration: invoke, `_record_request`, `finally` release,
return the result. -/
def bb_success_step (tr : BBExecTrace) : BBExecTrace :=
  let now1 := bb_wait_clock tr
  let s1 := tr.limiter.record_request now1
  let s2 := s1.release_burst_slot
  { limiter := s2, now := now1, invocations := tr.invocations + 1
    backoffs := tr.backoffs
    burst_at_invoke := tr.burst_at_invoke ++ [tr.limiter.current_burst]
    burst_trace := tr.burst_trace ++
      [tr.limiter.current_burst, s1.current_burst, s2.current_burst]
    raised := false, got_result := true }

/-- Failing last iteration (`attempt == retry_attempts - 1`): `finally`
release, then re-raise. -/
def bb_raise_step (tr : BBExecTrace) : BBExecTrace :=
  let now1 := bb_wait_clock tr
  let s2 := tr.limiter.release_burst_slot
  { limiter := s2, now := now1, invocations := tr.invocations + 1
    backoffs := tr.backoffs
    burst_at_invoke := tr.burst_at_invoke ++ [tr.limiter.current_burst]
    burst_trace := tr.burst_trace ++ [tr.limiter.current_burst, s2.current_burst]
    raised := true, got_result := false }

/-- The `min(2 ** attempt, 60)` backoff (Python ints). -/
def bb_backoff_amount (attempt : Nat) : Int := ((min (2 ^ attempt) 60 : Nat) : Int)

/-- Failing non-last iteration: backoff sleep inside `except`, then the
`finally` release, then the next loop iteration. -/
def bb_retry_step (attempt : Nat) (tr : BBExecTrace) : BBExecTrace :=
  let now1 := bb_wait_clock tr
  let s2 := tr.limiter.release_burst_slot
  { limiter := s2, now := now1 + bb_backoff_amount attempt
    invocations := tr.invocations + 1
    backoffs := tr.backoffs ++ [bb_backoff_amount attempt]
    burst_at_invoke := tr.burst_at_invoke ++ [tr.limiter.current_burst]
    burst_trace := tr.burst_trace ++ [tr.limiter.current_burst, s2.current_burst]
    raised := false, got_result := false }

/-- Body of `for attempt in range(self.retry_attempts)` inside
`RateLimiter.execute_with_rate_limit`, as a recursion on the number of
loop iterations still allowed (`remaining = retry_attempts - attempt`).
Per iteration: admission check, blocking wait when refused, operation
invocation, `_record_request` on success, `finally` release of the burst
slot, and `min(2 ** attempt, 60)` backoff before a retry. The `finally`
release runs after the backoff sleep of the `except` branch, matching
Python's block ordering. -/
def bbExecLoop (opOk : Nat → Bool) : Nat → Nat → BBExecTrace → BBExecTrace
  | 0, _, tr => tr
  | remaining + 1, attempt, tr =>
    if opOk attempt then bb_success_step tr
    else if remaining = 0 then bb_raise_step tr
    else bbExecLoop opOk remaining (attempt + 1) (bb_retry_step attempt tr)

/-- Embeds `RateLimiter.execute_with_rate_limit`, started at clock `now`. -/
def BBLimiter.execute_with_rate_limit (s : BBLimiter) (opOk : Nat → Bool) (now : Int) :
    BBExecTrace :=
  bbExecLoop opOk s.retry_attempts 0
    { limiter := s, now := now, invocations := 0, backoffs := []
      burst_at_invoke := [], burst_trace := [], raised := false, got_result := false }

/-- A sequence of `execute_with_rate_limit` calls on one limiter
instance, each given by its operation and its start time. -/
def BBLimiter.run_calls (s : BBLimiter) : List ((Nat → Bool) × Int) → BBLimiter
  | [] => s
  | (op, t) :: rest => ((s.execute_with_rate_limit op t).limiter).run_calls rest

end Bitbucket

namespace Sonarcloud

/-- The constant `self.base_delay = 1.0` set in the SonarCloud `RateLimiter.__init__`. -/
def base_delay : Int := 1

/-- The constant `self.max_delay = 60.0` set in the SonarCloud `RateLimiter.__init__`. -/
def max_delay : Int := 60

/-- State of the SonarCloud `RateLimiter`
(`src/sonarcloud/src/utils/rate_limiter.py`): an unbounded list of
request timestamps plus the construction parameters. -/
structure SCLimiter where
  max_requests : Nat
  time_window : Int
  retry_attempts : Nat
  request_times : List Int
deriving Repr, DecidableEq

/-- Embeds `RateLimiter.__init__`. -/
def SCLimiter.init (maxReq : Nat) (window : Int) (retries : Nat) : SCLimiter :=
  { max_requests := maxReq, time_window := window, retry_attempts := retries
    request_times := [] }

/-- Embeds `RateLimiter._clean_old_requests`: keep only the timestamps strictly
newer than `now - time_window`. -/
def SCLimiter.clean_old_requests (s : SCLimiter) (now : Int) : SCLimiter :=
  { s with request_times := s.request_times.filter (fun t => decide (now - s.time_window < t)) }

/-- Embeds `RateLimiter._can_make_request`: cleans the history, then admits iff
fewer than `max_requests` entries remain. Returns the mutated state. -/
def SCLimiter.can_make_request (s : SCLimiter) (now : Int) : SCLimiter × Bool :=
  let s1 := s.clean_old_requests now
  (s1, decide (s1.request_times.length < s.max_requests))

/-- Embeds `RateLimiter._wait_if_needed`: when admission is refused, sleep
until the oldest retained entry ages out (`time_window - (now - oldest)`
when positive). Returns the mutated state and the slept duration.
(`min(request_times)` on an empty list would raise in Python; that needs
`max_requests = 0`, and the `none` branch is never relied on below.) -/
def SCLimiter.wait_if_needed (s : SCLimiter) (now : Int) : SCLimiter × Int :=
  let r := s.can_make_request now
  if r.2 then (r.1, 0)
  else
    match r.1.request_times.min? with
    | some oldest =>
      let wait_time := s.time_window - (now - oldest)
      if 0 < wait_time then (r.1, wait_time) else (r.1, 0)
    | none => (r.1, 0)

/-- Embeds `RateLimiter._record_request`: unconditionally append `now`. -/
def SCLimiter.record_request (s : SCLimiter) (now : Int) : SCLimiter :=
  { s with request_times := s.request_times ++ [now] }

/-- Embeds `RateLimiter._calculate_backoff_delay` for a 1-based attempt number:
`min(base_delay * 2 ** (attempt - 1), max_delay)`. -/
def calculate_backoff_delay (attempt : Nat) : Int :=
  min (base_delay * (2 : Int) ^ (attempt - 1)) max_delay

/-- Observable trace of one `execute_request` call (fields as in
`Bitbucket.BBExecTrace`, without the burst counter, which this variant
does not have). -/
structure SCExecTrace where
  limiter : SCLimiter
  now : Int
  invocations : Nat
  backoffs : List Int
  raised : Bool
  got_result : Bool
deriving Repr

/-- Common head of every loop iteration of `execute_request`:
`_wait_if_needed`, then `_record_request` at the post-wait clock.
Returns the limiter and the clock after recording. -/
def sc_step_state (tr : SCExecTrace) : SCLimiter × Int :=
  let r := tr.limiter.wait_if_needed tr.now
  let now1 := tr.now + r.2
  (r.1.record_request now1, now1)

/-- Successful iteration: wait if needed, record, invoke, return. -/
def sc_success_step (tr : SCExecTrace) : SCExecTrace :=
  { limiter := (sc_step_state tr).1, now := (sc_step_state tr).2
    invocations := tr.invocations + 1, backoffs := tr.backoffs
    raised := false, got_result := true }

/-- Failing last iteration (`attempt == retry_attempts + 1`): re-raise. -/
def sc_raise_step (tr : SCExecTrace) : SCExecTrace :=
  { limiter := (sc_step_state tr).1, now := (sc_step_state tr).2
    invocations := tr.invocations + 1, backoffs := tr.backoffs
    raised := true, got_result := false }

/-- Failing non-last iteration: sleep `_calculate_backoff_delay(attempt)`
and continue. -/
def sc_retry_step (attempt : Nat) (tr : SCExecTrace) : SCExecTrace :=
  { limiter := (sc_step_state tr).1
    now := (sc_step_state tr).2 + calculate_backoff_delay attempt
    invocations := tr.invocations + 1
    backoffs := tr.backoffs ++ [calculate_backoff_delay attempt]
    raised := false, got_result := false }

/-- Body of `for attempt in range(1, self.retry_attempts + 2)` inside
`RateLimiter.execute_request` (the `+2` includes the initial attempt):
wait if needed, record the request, invoke; on failure re-raise when
`attempt == retry_attempts + 1`, otherwise sleep the backoff delay and
retry. `attempt` is 1-based as in the source. -/
def scExecLoop (opOk : Nat → Bool) : Nat → Nat → SCExecTrace → SCExecTrace
  | 0, _, tr => tr
  | remaining + 1, attempt, tr =>
    if opOk attempt then sc_success_step tr
    else if remaining = 0 then sc_raise_step tr
    else scExecLoop opOk remaining (attempt + 1) (sc_retry_step attempt tr)

/-- Embeds `RateLimiter.execute_request`, started at clock `now`. -/
def SCLimiter.execute_request (s : SCLimiter) (opOk : Nat → Bool) (now : Int) :
    SCExecTrace :=
  scExecLoop opOk (s.retry_attempts + 1) 1
    { limiter := s, now := now, invocations := 0, backoffs := []
      raised := false, got_result := false }

end Sonarcloud

namespace Bitbucket

/-- Outcome of one `_make_request` call of `BitbucketClient` as seen by
the typed fetch methods: the parsed body, an `httpx.HTTPStatusError`
carrying the response status, or any other exception. The rate-limiter
retry loop re-raises the last error unchanged, so with a fixed upstream
response the post-retry outcome equals the single-response outcome. -/
inductive FetchOutcome (α : Type) where
  | ok : α → FetchOutcome α
  | http_status_error : Nat → FetchOutcome α
  | other_error : FetchOutcome α
deriving Repr, DecidableEq

/-- A paginated JSON body: the `values` envelope (`response.get('values', [])`
defaults a missing field to the empty list). Items are abstract. -/
structure PagedBody (α : Type) where
  values : Option (List α)
deriving Repr, DecidableEq

/-- Embeds `response.raise_for_status()`: HTTP status `>= 400` raises an
`httpx.HTTPStatusError`, otherwise the JSON body is returned. -/
def make_request_outcome {α : Type} (status : Nat) (body : PagedBody α) :
    FetchOutcome (PagedBody α) :=
  if 400 ≤ status then .http_status_error status else .ok body

/-- Embeds `BitbucketClient.get_repository_commits` on a given request outcome:
every error is logged and re-raised. -/
def get_repository_commits {α : Type} (resp : FetchOutcome (PagedBody α)) :
    FetchOutcome (List α) :=
  match resp with
  | .ok body => .ok (body.values.getD [])
  | .http_status_error st => .http_status_error st
  | .other_error => .other_error

/-- Embeds `BitbucketClient.get_repository_pull_requests` on a given request
outcome: an `httpx.HTTPStatusError` with status 400 is downgraded to the
empty list; every other error is re-raised. -/
def get_repository_pull_requests {α : Type} (resp : FetchOutcome (PagedBody α)) :
    FetchOutcome (List α) :=
  match resp with
  | .ok body => .ok (body.values.getD [])
  | .http_status_error st => if st = 400 then .ok [] else .http_status_error st
  | .other_error => .other_error

/-- The `while True` pagination loop shared verbatim by
`get_all_workspace_projects`, `get_all_workspace_repositories` and
`get_all_project_repositories`: fetch `pages page`, stop before
accumulating when the page is empty, otherwise accumulate and stop when
the page holds fewer than `page_size` records, else continue with
`page + 1`. Returns the accumulated records and the list of requested
page numbers; `fuel` bounds the iterations (the source loop has no such
bound and would not terminate on a never-shrinking endpoint). -/
def fetch_pages {α : Type} (pages : Nat → List α) (page_size : Nat) :
    Nat → Nat → List α × List Nat
  | 0, _ => ([], [])
  | fuel + 1, page =>
    let batch := pages page
    if batch.isEmpty then ([], [page])
    else if batch.length < page_size then (batch, [page])
    else
      let rest := fetch_pages pages page_size fuel (page + 1)
      (batch ++ rest.1, page :: rest.2)

/-- Embeds `BitbucketClient.get_all_workspace_projects`: page starts at 1,
page size 100. -/
def get_all_workspace_projects {α : Type} (pages : Nat → List α) (fuel : Nat) :
    List α × List Nat :=
  fetch_pages pages 100 fuel 1

/-- Embeds `BitbucketClient.get_all_workspace_repositories`: identical loop,
page starts at 1, page size 100. -/
def get_all_workspace_repositories {α : Type} (pages : Nat → List α) (fuel : Nat) :
    List α × List Nat :=
  fetch_pages pages 100 fuel 1

end Bitbucket

namespace Bitbucket

/-- Result of a batch-sync loop of `RepositoryService`: the items whose
upsert was attempted in order, the success/failure counters, and the
number of 1-second inter-batch sleeps. -/
structure BatchAcc (α : Type) where
  attempted : List α
  ok_count : Nat
  fail_count : Nat
  sleep_count : Nat
deriving Repr, DecidableEq

/-- The loop `for i in range(0, total, batch_size)` of
`RepositoryService.sync_workspace_repositories`: each batch is
`items[i:i+batch_size]`; each item in the batch is upserted sequentially
inside a try/except that counts a failure and moves on; after every
batch (including the last) the loop sleeps 1 second
(`await asyncio.sleep(1)` is unconditional). Recursion peels one batch
per step; callers guarantee `0 < batch_size` (Python raises on step 0). -/
def sync_batches_repositories {α : Type} (upsertOk : α → Bool) (batch_size : Nat) :
    List α → BatchAcc α
  | [] => { attempted := [], ok_count := 0, fail_count := 0, sleep_count := 0 }
  | x :: xs =>
    let batch := x :: xs.take (batch_size - 1)
    let rest := sync_batches_repositories upsertOk batch_size (xs.drop (batch_size - 1))
    { attempted := batch ++ rest.attempted
      ok_count := (batch.filter upsertOk).length + rest.ok_count
      fail_count := (batch.filter (fun a => !upsertOk a)).length + rest.fail_count
      sleep_count := 1 + rest.sleep_count }
termination_by l => l.length
decreasing_by simp [List.length_drop]; omega

/-- Batch loop of `RepositoryService.sync_workspace_projects`: same
chunking and per-item try/except, but the 1-second sleep is guarded by
`if i + batch_size < total`, i.e. it happens only when another batch
follows. -/
def sync_batches_projects {α : Type} (upsertOk : α → Bool) (batch_size : Nat) :
    List α → BatchAcc α
  | [] => { attempted := [], ok_count := 0, fail_count := 0, sleep_count := 0 }
  | x :: xs =>
    let batch := x :: xs.take (batch_size - 1)
    let rest := sync_batches_projects upsertOk batch_size (xs.drop (batch_size - 1))
    { attempted := batch ++ rest.attempted
      ok_count := (batch.filter upsertOk).length + rest.ok_count
      fail_count := (batch.filter (fun a => !upsertOk a)).length + rest.fail_count
      sleep_count := (if (xs.drop (batch_size - 1)).isEmpty then 0 else 1) + rest.sleep_count }
termination_by l => l.length
decreasing_by simp [List.length_drop]; omega

/-- Final summary assembled by the sync methods. `success_rate` is
`successful / total * 100` as an exact rational (the source computes it
in floating point) and 0 when the total is 0. -/
structure SyncSummary (α : Type) where
  attempted : List α
  total : Nat
  successful_syncs : Nat
  failed_syncs : Nat
  sleep_count : Nat
  success_rate : Rat
deriving Repr, DecidableEq

/-- Embeds `RepositoryService.sync_workspace_repositories` on an already
materialized item list: `none` models the `ValueError` Python raises for
`range(..., 0)` when `batch_size = 0`. -/
def sync_workspace_repositories {α : Type} (upsertOk : α → Bool) (items : List α)
    (batch_size : Nat) : Option (SyncSummary α) :=
  if batch_size = 0 then none
  else
    let acc := sync_batches_repositories upsertOk batch_size items
    some { attempted := acc.attempted
           total := items.length
           successful_syncs := acc.ok_count
           failed_syncs := acc.fail_count
           sleep_count := acc.sleep_count
           success_rate :=
             if 0 < items.length then (acc.ok_count : Rat) / (items.length : Rat) * 100
             else 0 }

/-- Embeds `RepositoryService.sync_workspace_projects` on an already
materialized item list. -/
def sync_workspace_projects {α : Type} (upsertOk : α → Bool) (items : List α)
    (batch_size : Nat) : Option (SyncSummary α) :=
  if batch_size = 0 then none
  else
    let acc := sync_batches_projects upsertOk batch_size items
    some { attempted := acc.attempted
           total := items.length
           successful_syncs := acc.ok_count
           failed_syncs := acc.fail_count
           sleep_count := acc.sleep_count
           success_rate :=
             if 0 < items.length then (acc.ok_count : Rat) / (items.length : Rat) * 100
             else 0 }

end Bitbucket

namespace Linker

/-- Python `str.split(sep)` on a character separator, over strings
modelled as character lists (so `''.split(':') = ['']`). -/
def pySplit (sep : Char) : List Char → List (List Char)
  | [] => [[]]
  | c :: cs =>
    if c = sep then [] :: pySplit sep cs
    else
      match pySplit sep cs with
      | [] => [[c]]
      | r :: rs => (c :: r) :: rs

/-- Embeds `extract_repository_name_from_sonarcloud_key` of
`src/bitbucket/src/scripts/link_sonarcloud_bitbucket.py`:
`key.split(':')[-1]` when `':' in key`, else `None`. -/
def extract_repository_name_from_sonarcloud_key (key : List Char) :
    Option (List Char) :=
  if key.contains ':' then some ((pySplit ':' key).getLast?.getD []) else none

/-- Modelled from the claim's wording, for comparison with the source
function: the suffix of `key` after its last colon (the whole string
when there is no colon). -/
def after_last_colon : List Char → List Char
  | [] => []
  | c :: cs =>
    if cs.contains ':' then after_last_colon cs
    else if c = ':' then cs
    else c :: cs

/-- A Bitbucket repository row as the linker reads it (`repo.slug`,
`repo.id`). -/
structure BBRepo where
  slug : List Char
  rid : Nat
deriving Repr, DecidableEq

/-- A `sonarcloud_projects` row as the linker touches it: the key and
the `bitbucket_repository_id` column. -/
structure SCProject where
  key : List Char
  bitbucket_repository_id : Option Nat
deriving Repr, DecidableEq

/-- The inner update of `link_sonarcloud_bitbucket` for one SonarCloud
key: `session.query(...).filter(key == k).first()` finds the first row
with that key; if it is not already linked to `rid` the row is updated
and the update counter incremented. Returns the rows and the count (0
or 1). -/
def update_first (k : List Char) (rid : Nat) : List SCProject → List SCProject × Nat
  | [] => ([], 0)
  | p :: ps =>
    if p.key = k then
      if p.bitbucket_repository_id = some rid then (p :: ps, 0)
      else ({ p with bitbucket_repository_id := some rid } :: ps, 1)
    else
      let rest := update_first k rid ps
      (p :: rest.1, rest.2)

/-- The `for sonarcloud_key in sonarcloud_keys` loop for one repository:
apply `update_first` for each key of the repository's dictionary entry,
accumulating the update count. -/
def process_keys (rid : Nat) : List (List Char) → List SCProject → List SCProject × Nat
  | [], l => (l, 0)
  | k :: ks, l =>
    let r := update_first k rid l
    let rest := process_keys rid ks r.1
    (rest.1, r.2 + rest.2)

/-- The dictionary entry `sonarcloud_repository_map[slug]`, built once
from the queried SonarCloud keys (`session.query(SonarCloudProject.key)`):
the keys whose extracted repository name equals `slug`, in row order. An
absent dictionary entry is the empty list, and the
`if repository_slug in sonarcloud_repository_map` guard then skips the
repository, which `process_keys` on `[]` also does. -/
def key_group (keys : List (List Char)) (slug : List Char) : List (List Char) :=
  keys.filter
    (fun k => extract_repository_name_from_sonarcloud_key k = some slug)

/-- The `for repository in repositories` loop, over a fixed key
dictionary `g`. -/
def link_repos (g : List Char → List (List Char)) :
    List BBRepo → List SCProject → List SCProject × Nat
  | [], l => (l, 0)
  | r :: rs, l =>
    let res := process_keys r.rid (g r.slug) l
    let rest := link_repos g rs res.1
    (rest.1, res.2 + rest.2)

/-- Steps 3-4 of `link_sonarcloud_bitbucket`: build the key dictionary
from the current SonarCloud rows, then run the linking loop. Returns the
updated rows and `updated_count`. -/
def link_sonarcloud_bitbucket (repos : List BBRepo) (projs : List SCProject) :
    List SCProject × Nat :=
  link_repos (key_group (projs.map SCProject.key)) repos projs

end Linker

namespace Bitbucket

theorem dequeAppend_length_le (m : Nat) (xs : List Int) (x : Int) :
    (dequeAppend m xs x).length ≤ m := by
  simp [dequeAppend, List.length_drop]; omega

theorem bbExecLoop_limiter (f : Nat → Bool) (n : Nat) :
    ∀ (a : Nat) (tr : BBExecTrace),
      (bbExecLoop f n a tr).limiter.max_requests_per_hour =
        tr.limiter.max_requests_per_hour ∧
      ((bbExecLoop f n a tr).limiter.request_times.length ≤
          tr.limiter.max_requests_per_hour ∨
        (bbExecLoop f n a tr).limiter.request_times = tr.limiter.request_times) := by
  induction n with
  | zero => exact fun a tr => ⟨rfl, Or.inr rfl⟩
  | succ m ih =>
    intro a tr
    simp only [bbExecLoop]
    by_cases h1 : f a
    · simp only [h1, if_true]
      exact ⟨rfl, Or.inl (dequeAppend_length_le _ _ _)⟩
    · by_cases h2 : m = 0
      · simp only [h1, h2, if_false, if_true]
        exact ⟨rfl, Or.inr rfl⟩
      · simp only [h1, h2, if_false]
        exact (ih (a + 1) _)

theorem bbExecLoop_const_false (n : Nat) :
    ∀ (a : Nat) (tr : BBExecTrace),
      (bbExecLoop (fun _ => false) n a tr).invocations = tr.invocations + n ∧
      (0 < n → (bbExecLoop (fun _ => false) n a tr).raised = true) := by
  induction n with
  | zero => intro a tr; simp [bbExecLoop]
  | succ m ih =>
    intro a tr
    rw [bbExecLoop]
    by_cases h2 : m = 0
    · subst h2; simp [bb_raise_step]
    · simp only [Bool.false_eq_true, if_false, h2]
      refine ⟨?_, fun _ => (ih (a + 1) _).2 (by omega)⟩
      rw [(ih (a + 1) _).1]
      simp only [bb_retry_step]
      omega

end Bitbucket

namespace Sonarcloud

theorem scExecLoop_const_false (n : Nat) :
    ∀ (a : Nat) (tr : SCExecTrace),
      (scExecLoop (fun _ => false) n a tr).invocations = tr.invocations + n ∧
      (0 < n → (scExecLoop (fun _ => false) n a tr).raised = true) := by
  induction n with
  | zero => intro a tr; simp [scExecLoop]
  | succ m ih =>
    intro a tr
    rw [scExecLoop]
    by_cases h2 : m = 0
    · subst h2; simp [sc_raise_step]
    · simp only [Bool.false_eq_true, if_false, h2]
      refine ⟨?_, fun _ => (ih (a + 1) _).2 (by omega)⟩
      rw [(ih (a + 1) _).1]
      simp only [sc_retry_step]
      omega

end Sonarcloud

namespace Bitbucket

theorem bbExecLoop_inv_mono (f : Nat → Bool) (n : Nat) :
    ∀ (a : Nat) (tr : BBExecTrace),
      tr.invocations ≤ (bbExecLoop f n a tr).invocations ∧
      (0 < n → tr.invocations < (bbExecLoop f n a tr).invocations) := by
  induction n with
  | zero => intro a tr; simp [bbExecLoop]
  | succ m ih =>
    intro a tr
    rw [bbExecLoop]
    by_cases h1 : f a
    · simp only [h1, if_true, bb_success_step]
      omega
    · by_cases h2 : m = 0
      · subst h2
        simp only [h1, Bool.false_eq_true, if_false, if_true, bb_raise_step]
        omega
      · simp only [h1, Bool.false_eq_true, if_false, h2]
        have h3 := (ih (a + 1) (bb_retry_step a tr)).1
        have h4 : (bb_retry_step a tr).invocations = tr.invocations + 1 := rfl
        omega

theorem bbExecLoop_backoffs (f : Nat → Bool) (n : Nat) :
    ∀ (a : Nat) (tr : BBExecTrace),
      (bbExecLoop f n a tr).backoffs = tr.backoffs ++
        (List.range' a ((bbExecLoop f n a tr).invocations - tr.invocations - 1)).map
          bb_backoff_amount := by
  induction n with
  | zero => intro a tr; simp [bbExecLoop]
  | succ m ih =>
    intro a tr
    rw [bbExecLoop]
    by_cases h1 : f a
    · simp [h1, bb_success_step]
    · by_cases h2 : m = 0
      · subst h2
        simp [h1, bb_raise_step]
      · simp only [h1, Bool.false_eq_true, if_false, h2]
        have hmono := (bbExecLoop_inv_mono f m (a + 1) (bb_retry_step a tr)).2 (by omega)
        have hih := ih (a + 1) (bb_retry_step a tr)
        have hinv : (bb_retry_step a tr).invocations = tr.invocations + 1 := rfl
        have hback : (bb_retry_step a tr).backoffs =
            tr.backoffs ++ [bb_backoff_amount a] := rfl
        rw [hih, hback]
        have hD : (bbExecLoop f m (a + 1) (bb_retry_step a tr)).invocations -
            tr.invocations - 1 =
            ((bbExecLoop f m (a + 1) (bb_retry_step a tr)).invocations -
              (bb_retry_step a tr).invocations - 1) + 1 := by
          rw [hinv]; omega
        rw [hD, List.range'_succ]
        simp

end Bitbucket

namespace Sonarcloud

theorem scExecLoop_inv_mono (f : Nat → Bool) (n : Nat) :
    ∀ (a : Nat) (tr : SCExecTrace),
      tr.invocations ≤ (scExecLoop f n a tr).invocations ∧
      (0 < n → tr.invocations < (scExecLoop f n a tr).invocations) := by
  induction n with
  | zero => intro a tr; simp [scExecLoop]
  | succ m ih =>
    intro a tr
    rw [scExecLoop]
    by_cases h1 : f a
    · simp only [h1, if_true, sc_success_step]
      omega
    · by_cases h2 : m = 0
      · subst h2
        simp only [h1, Bool.false_eq_true, if_false, if_true, sc_raise_step]
        omega
      · simp only [h1, Bool.false_eq_true, if_false, h2]
        have h3 := (ih (a + 1) (sc_retry_step a tr)).1
        have h4 : (sc_retry_step a tr).invocations = tr.invocations + 1 := rfl
        omega

theorem scExecLoop_backoffs (f : Nat → Bool) (n : Nat) :
    ∀ (a : Nat) (tr : SCExecTrace),
      (scExecLoop f n a tr).backoffs = tr.backoffs ++
        (List.range' a ((scExecLoop f n a tr).invocations - tr.invocations - 1)).map
          calculate_backoff_delay := by
  induction n with
  | zero => intro a tr; simp [scExecLoop]
  | succ m ih =>
    intro a tr
    rw [scExecLoop]
    by_cases h1 : f a
    · simp [h1, sc_success_step]
    · by_cases h2 : m = 0
      · subst h2
        simp [h1, sc_raise_step]
      · simp only [h1, Bool.false_eq_true, if_false, h2]
        have hmono := (scExecLoop_inv_mono f m (a + 1) (sc_retry_step a tr)).2 (by omega)
        have hih := ih (a + 1) (sc_retry_step a tr)
        have hinv : (sc_retry_step a tr).invocations = tr.invocations + 1 := rfl
        have hback : (sc_retry_step a tr).backoffs =
            tr.backoffs ++ [calculate_backoff_delay a] := rfl
        rw [hih, hback]
        have hD : (scExecLoop f m (a + 1) (sc_retry_step a tr)).invocations -
            tr.invocations - 1 =
            ((scExecLoop f m (a + 1) (sc_retry_step a tr)).invocations -
              (sc_retry_step a tr).invocations - 1) + 1 := by
          rw [hinv]; omega
        rw [hD, List.range'_succ]
        simp

end Sonarcloud

namespace Bitbucket

theorem bb_backoff_amount_eq (k : Nat) :
    bb_backoff_amount k = min ((2 : Int) ^ k) 60 := by
  unfold bb_backoff_amount
  push_cast
  rfl

theorem run_calls_window (calls : List ((Nat → Bool) × Int)) :
    ∀ (s : BBLimiter),
      (s.run_calls calls).max_requests_per_hour = s.max_requests_per_hour ∧
      (s.request_times.length ≤ s.max_requests_per_hour →
        (s.run_calls calls).request_times.length ≤ s.max_requests_per_hour) := by
  induction calls with
  | nil => exact fun s => ⟨rfl, fun h => h⟩
  | cons c rest ih =>
    intro s
    obtain ⟨op, t⟩ := c
    simp only [BBLimiter.run_calls]
    have hexec := bbExecLoop_limiter op s.retry_attempts 0
      { limiter := s, now := t, invocations := 0, backoffs := []
        burst_at_invoke := [], burst_trace := [], raised := false, got_result := false }
    have hrest := ih ((s.execute_with_rate_limit op t).limiter)
    have hmax : (s.execute_with_rate_limit op t).limiter.max_requests_per_hour =
        s.max_requests_per_hour := hexec.1
    refine ⟨by rw [hrest.1, hmax], fun h => ?_⟩
    have hlen : (s.execute_with_rate_limit op t).limiter.request_times.length ≤
        s.max_requests_per_hour := by
      rcases hexec.2 with h1 | h2
      · exact h1
      · rw [BBLimiter.execute_with_rate_limit, h2]; exact h
    rw [← hmax] at hlen ⊢
    exact hrest.2 hlen

end Bitbucket

/-- C1 counterexample: on the Bitbucket limiter (`maxRequestsPerWindow = 3`,
`windowSeconds = 3600`) a request recorded at time 0 is still retained
after the admission decision of a second `execute` call made at
time 5000, even though its age (5000 s) exceeds the window: the deque
evicts by capacity only, never by age, so the claimed eviction of
entries older than the window before each admission decision does not
happen. -/
theorem claim_C1_window_counterexample :
    ((Bitbucket.BBLimiter.init 3 10 1).run_calls
        [(fun _ => true, 0), (fun _ => true, 5000)]).request_times = [0, 5000] ∧
    ¬ (((Bitbucket.BBLimiter.init 3 10 1).run_calls
        [(fun _ => true, 0), (fun _ => true, 5000)]).request_times.all
          (fun t => decide ((5000 : Int) - t < 3600)) = true) := by
  decide

/-- C1 (amended): across every sequence of `execute` calls the Bitbucket
limiter's window retains at most `maxRequestsPerWindow` timestamps (the
deque evicts oldest-first by capacity); the SonarCloud limiter evicts
the entries older than `windowSeconds` before every admission decision
(every timestamp surviving `_can_make_request`'s cleaning is younger
than the window). The Bitbucket limiter does not age-evict (see the
counterexample). -/
theorem claim_C1_window_amended :
    (∀ (maxReq burstLim retries : Nat) (calls : List ((Nat → Bool) × Int)),
      ((Bitbucket.BBLimiter.init maxReq burstLim retries).run_calls
        calls).request_times.length ≤ maxReq) ∧
    (∀ (s : Sonarcloud.SCLimiter) (now : Int),
      ((s.can_make_request now).1.request_times.all
        (fun t => decide (now - s.time_window < t))) = true) := by
  constructor
  · intro maxReq burstLim retries calls
    exact (Bitbucket.run_calls_window calls (Bitbucket.BBLimiter.init maxReq burstLim retries)).2
      (by simp [Bitbucket.BBLimiter.init])
  · intro s now
    apply List.all_eq_true.2
    intro t ht
    simp only [Sonarcloud.SCLimiter.can_make_request,
      Sonarcloud.SCLimiter.clean_old_requests] at ht
    exact (List.mem_filter.1 ht).2

/-- C2 (code bug in the Bitbucket copy): for an always-failing operation
the SonarCloud `execute_request` invokes it exactly `retryAttempts + 1`
times and then re-raises, as the claim states; the Bitbucket
`execute_with_rate_limit` loop is `for attempt in range(self.retry_attempts)`,
so at the failing input `retry_attempts = 1` it makes exactly 1
invocation (not 2) before re-raising, and at `retry_attempts = 0` it
makes no invocation at all and returns `None` instead of raising. -/
theorem claim_C2_retry_bound :
    (∀ (s : Sonarcloud.SCLimiter) (now : Int),
      (s.execute_request (fun _ => false) now).invocations = s.retry_attempts + 1 ∧
      (s.execute_request (fun _ => false) now).raised = true) ∧
    ((Bitbucket.BBLimiter.init 1000 10 1).execute_with_rate_limit
        (fun _ => false) 0).invocations = 1 ∧
    ((Bitbucket.BBLimiter.init 1000 10 1).execute_with_rate_limit
        (fun _ => false) 0).raised = true ∧
    ((Bitbucket.BBLimiter.init 1000 10 0).execute_with_rate_limit
        (fun _ => false) 0).invocations = 0 ∧
    ((Bitbucket.BBLimiter.init 1000 10 0).execute_with_rate_limit
        (fun _ => false) 0).raised = false := by
  refine ⟨fun s now => ?_, by decide, by decide, by decide, by decide⟩
  have h := Sonarcloud.scExecLoop_const_false (s.retry_attempts + 1) 1
    { limiter := s, now := now, invocations := 0, backoffs := []
      raised := false, got_result := false }
  exact ⟨by rw [Sonarcloud.SCLimiter.execute_request, h.1]; simp, h.2 (by omega)⟩

namespace Sonarcloud

theorem calculate_backoff_delay_one_add (k : Nat) :
    calculate_backoff_delay (1 + k) = min ((2 : Int) ^ k) 60 := by
  simp [calculate_backoff_delay, base_delay, max_delay]

end Sonarcloud

/-- C5: between a failed attempt `k` and attempt `k + 1` (`k` 0-based,
counting invocations of the wrapped operation) both limiters sleep
exactly `min(2 ^ k, 60)` seconds: the backoff list of any run is
`[min(2^0,60), min(2^1,60), ...]`, one entry per non-final invocation
(every non-final invocation failed, since a success ends the run). -/
theorem claim_C5_backoff :
    (∀ (opOk : Nat → Bool) (s : Bitbucket.BBLimiter) (now : Int),
      (s.execute_with_rate_limit opOk now).backoffs =
        (List.range ((s.execute_with_rate_limit opOk now).invocations - 1)).map
          (fun k => min ((2 : Int) ^ k) 60)) ∧
    (∀ (opOk : Nat → Bool) (s : Sonarcloud.SCLimiter) (now : Int),
      (s.execute_request opOk now).backoffs =
        (List.range ((s.execute_request opOk now).invocations - 1)).map
          (fun k => min ((2 : Int) ^ k) 60)) := by
  constructor
  · intro opOk s now
    rw [Bitbucket.BBLimiter.execute_with_rate_limit,
      Bitbucket.bbExecLoop_backoffs opOk s.retry_attempts 0]
    rw [List.range_eq_range']
    simp only [List.nil_append, Nat.sub_zero]
    rw [show Bitbucket.bb_backoff_amount = (fun k => min ((2 : Int) ^ k) 60) from
      funext Bitbucket.bb_backoff_amount_eq]
  · intro opOk s now
    rw [Sonarcloud.SCLimiter.execute_request,
      Sonarcloud.scExecLoop_backoffs opOk (s.retry_attempts + 1) 1]
    rw [List.range'_eq_map_range, List.map_map]
    simp only [List.nil_append, Nat.sub_zero, Function.comp]
    rw [show ((fun a => Sonarcloud.calculate_backoff_delay a) ∘ fun x => 1 + x) =
        (fun k => min ((2 : Int) ^ k) 60) from
      funext fun k => Sonarcloud.calculate_backoff_delay_one_add k]

namespace Bitbucket

theorem bbExecLoop_burst (f : Nat → Bool) (n : Nat) :
    ∀ (a : Nat) (tr : BBExecTrace), tr.limiter.current_burst = 0 →
      (bbExecLoop f n a tr).limiter.current_burst = 0 ∧
      ∀ b ∈ (bbExecLoop f n a tr).burst_trace,
        b ∈ tr.burst_trace ∨ (0 ≤ b ∧ b ≤ 1) := by
  induction n with
  | zero =>
    intro a tr h
    exact ⟨h, fun b hb => Or.inl hb⟩
  | succ m ih =>
    intro a tr h
    rw [bbExecLoop]
    by_cases h1 : f a
    · simp only [h1, if_true]
      constructor
      · simp [bb_success_step, BBLimiter.record_request, BBLimiter.release_burst_slot, h]
      · intro b hb
        simp only [bb_success_step, BBLimiter.record_request,
          BBLimiter.release_burst_slot, List.mem_append, List.mem_cons,
          List.not_mem_nil, or_false, h] at hb
        rcases hb with hb | hb
        · exact Or.inl hb
        · right; omega
    · by_cases h2 : m = 0
      · subst h2
        simp only [h1, Bool.false_eq_true, if_false, if_true]
        constructor
        · simp [bb_raise_step, BBLimiter.release_burst_slot, h]
        · intro b hb
          simp only [bb_raise_step, BBLimiter.release_burst_slot, List.mem_append,
            List.mem_cons, List.not_mem_nil, or_false, h] at hb
          rcases hb with hb | hb
          · exact Or.inl hb
          · right; omega
      · simp only [h1, Bool.false_eq_true, if_false, h2]
        have hstep : (bb_retry_step a tr).limiter.current_burst = 0 := by
          simp [bb_retry_step, BBLimiter.release_burst_slot, h]
        obtain ⟨hz, htr⟩ := ih (a + 1) (bb_retry_step a tr) hstep
        refine ⟨hz, fun b hb => ?_⟩
        rcases htr b hb with hb2 | hb2
        · simp only [bb_retry_step, BBLimiter.release_burst_slot, List.mem_append,
            List.mem_cons, List.not_mem_nil, or_false, h] at hb2
          rcases hb2 with hb2 | hb2
          · exact Or.inl hb2
          · right; omega
        · exact Or.inr hb2

end Bitbucket

/-- C3 counterexample: in the source the burst counter is *not*
incremented when an attempt starts — `_record_request` (the only
increment) runs after the operation has returned successfully. On a
fresh limiter, during the invocation of the first (successful) attempt
`current_burst` is still 0, where the claimed increment-on-start would
make every in-flight invocation observe a value of at least 1. -/
theorem claim_C3_burst_counterexample :
    ((Bitbucket.BBLimiter.init 1000 10 1).execute_with_rate_limit
        (fun _ => true) 0).burst_at_invoke = [0] ∧
    ((Bitbucket.BBLimiter.init 1000 10 1).execute_with_rate_limit
        (fun _ => true) 0).got_result = true ∧
    ¬ (∀ b ∈ ((Bitbucket.BBLimiter.init 1000 10 1).execute_with_rate_limit
        (fun _ => true) 0).burst_at_invoke, 1 ≤ b) := by
  refine ⟨by decide, by decide, ?_⟩
  intro hall
  have := hall 0 (by decide)
  omega

/-- C3 (amended): the burst counter is incremented only after a
successful operation return (inside `_record_request`) and decremented
in the `finally` of every attempt (floored at 0); starting from an idle
limiter (`current_burst = 0`), every value the counter takes during an
`execute` call satisfies `0 ≤ burstCount ≤ burstLimit` whenever
`burstLimit ≥ 1`, and the counter is 0 again when the call ends (so the
bound holds across any sequence of sequential calls). -/
theorem claim_C3_burst_amended :
    ∀ (s : Bitbucket.BBLimiter) (opOk : Nat → Bool) (now : Int),
      s.current_burst = 0 → 1 ≤ s.burst_limit →
      (∀ b ∈ (s.execute_with_rate_limit opOk now).burst_trace,
          0 ≤ b ∧ b ≤ (s.burst_limit : Int)) ∧
      (s.execute_with_rate_limit opOk now).limiter.current_burst = 0 := by
  intro s opOk now h hlim
  obtain ⟨hz, htr⟩ := Bitbucket.bbExecLoop_burst opOk s.retry_attempts 0
    { limiter := s, now := now, invocations := 0, backoffs := []
      burst_at_invoke := [], burst_trace := [], raised := false, got_result := false }
    h
  refine ⟨fun b hb => ?_, hz⟩
  rcases htr b hb with hb2 | hb2
  · simp at hb2
  · have : (1 : Int) ≤ (s.burst_limit : Int) := by exact_mod_cast hlim
    omega

/-- Witness for the amended C3 at a concrete run. -/
theorem claim_C3_burst_amended_witness :
    (∀ b ∈ ((Bitbucket.BBLimiter.init 1000 10 1).execute_with_rate_limit
        (fun _ => true) 0).burst_trace,
        0 ≤ b ∧ b ≤ ((Bitbucket.BBLimiter.init 1000 10 1).burst_limit : Int)) ∧
    ((Bitbucket.BBLimiter.init 1000 10 1).execute_with_rate_limit
        (fun _ => true) 0).limiter.current_burst = 0 :=
  claim_C3_burst_amended (Bitbucket.BBLimiter.init 1000 10 1) (fun _ => true) 0
    (by decide) (by decide)

namespace Bitbucket

theorem wait_duration_ge_retry_after (s : BBLimiter) (t : Int)
    (info : RateLimitInfo) (ra : Int) (h1 : s.rate_limit_info = some info)
    (h2 : info.retry_after = some ra) (h3 : ra ≠ 0) :
    max 0 ra ≤ s.wait_if_needed_duration t := by
  unfold BBLimiter.wait_if_needed_duration
  simp only [h1, h2]
  rw [if_pos h3]
  by_cases hl : s.max_requests_per_hour ≤ s.request_times.length
  · rw [if_pos hl]
    cases hh : s.request_times.head? with
    | none => dsimp only; omega
    | some oldest =>
      dsimp only
      split
      · omega
      · omega
  · rw [if_neg hl]

theorem parse_retry_after_of_headers (defaultMax : Nat) (h : Headers) (now : Int)
    (info : RateLimitInfo) (hra : h.retry_after_header = some ("5".toList))
    (hp : parse_rate_limit_headers defaultMax h now = some info) :
    info.retry_after = some 5 := by
  unfold parse_rate_limit_headers at hp
  rw [hra] at hp
  have h5 : parse_retry_header (some ("5".toList)) = some (some 5) := by decide
  rw [h5] at hp
  cases hL : parse_count_header defaultMax h.x_rate_limit_limit with
  | none => rw [hL] at hp; simp at hp
  | some l =>
    cases hR : parse_count_header defaultMax h.x_rate_limit_remaining with
    | none => rw [hL, hR] at hp; simp at hp
    | some r =>
      cases hT : parse_reset_header now h.x_rate_limit_reset with
      | none => rw [hL, hR, hT] at hp; simp at hp
      | some rt =>
        rw [hL, hR, hT] at hp
        simp only [Option.some_inj] at hp
        rw [← hp]

end Bitbucket

/-- C4: after `_update_rate_limit_info` succeeds on headers carrying a
valid `Retry-After: 5` (all present headers parse), the wait duration
computed by `_wait_if_needed` at the next admission check is at least 5
seconds, whatever the sliding-window contents and the clock: the wait is
a running maximum that includes the server retry-after. -/
theorem claim_C4_header_precedence :
    ∀ (s : Bitbucket.BBLimiter) (h : Bitbucket.Headers) (now t : Int)
      (info : Bitbucket.RateLimitInfo),
      h.retry_after_header = some ("5".toList) →
      Bitbucket.parse_rate_limit_headers s.max_requests_per_hour h now = some info →
      (5 : Int) ≤ (s.update_rate_limit_info h now).wait_if_needed_duration t := by
  intro s h now t info hra hp
  have hinfo : info.retry_after = some 5 :=
    Bitbucket.parse_retry_after_of_headers s.max_requests_per_hour h now info hra hp
  have hupd : (s.update_rate_limit_info h now).rate_limit_info = some info := by
    unfold Bitbucket.BBLimiter.update_rate_limit_info
    rw [hp]
  have hge := Bitbucket.wait_duration_ge_retry_after
    (s.update_rate_limit_info h now) t info 5 hupd hinfo (by omega)
  omega

/-- Witness for C4 at a concrete header set and window state. -/
theorem claim_C4_header_precedence_witness :
    (5 : Int) ≤ ((Bitbucket.BBLimiter.init 1000 10 1).update_rate_limit_info
      { x_rate_limit_limit := none, x_rate_limit_remaining := none
        x_rate_limit_reset := none, retry_after_header := some ("5".toList) }
      0).wait_if_needed_duration 12345 :=
  claim_C4_header_precedence (Bitbucket.BBLimiter.init 1000 10 1)
    { x_rate_limit_limit := none, x_rate_limit_remaining := none
      x_rate_limit_reset := none, retry_after_header := some ("5".toList) }
    0 12345 { limit := 1000, remaining := 1000, reset_time := 3600, retry_after := some 5 }
    (by decide) (by decide)

/-- C6: an HTTP 400 on the pull-requests endpoint is downgraded by
`get_repository_pull_requests` to the empty list; the same 400 on the
commits endpoint makes `get_repository_commits` re-raise, and every
other status `>= 400` on the pull-requests endpoint also re-raises. -/
theorem claim_C6_pr_400_special_case :
    ∀ (α : Type) (body : Bitbucket.PagedBody α) (st : Nat),
      Bitbucket.get_repository_pull_requests (Bitbucket.make_request_outcome 400 body) =
        Bitbucket.FetchOutcome.ok [] ∧
      (400 ≤ st →
        Bitbucket.get_repository_commits (Bitbucket.make_request_outcome st body) =
          Bitbucket.FetchOutcome.http_status_error st) ∧
      (400 ≤ st → st ≠ 400 →
        Bitbucket.get_repository_pull_requests (Bitbucket.make_request_outcome st body) =
          Bitbucket.FetchOutcome.http_status_error st) := by
  intro α body st
  refine ⟨rfl, fun h4 => ?_, fun h4 hne => ?_⟩
  · simp [Bitbucket.make_request_outcome, Bitbucket.get_repository_commits, h4]
  · simp [Bitbucket.make_request_outcome, Bitbucket.get_repository_pull_requests, h4, hne]

/-- Witness for C6 at statuses 400 and 500. -/
theorem claim_C6_pr_400_special_case_witness :
    Bitbucket.get_repository_pull_requests
        (Bitbucket.make_request_outcome 400 ({ values := some [7] } : Bitbucket.PagedBody Nat)) =
      Bitbucket.FetchOutcome.ok [] ∧
    Bitbucket.get_repository_commits
        (Bitbucket.make_request_outcome 400 ({ values := some [7] } : Bitbucket.PagedBody Nat)) =
      Bitbucket.FetchOutcome.http_status_error 400 ∧
    Bitbucket.get_repository_pull_requests
        (Bitbucket.make_request_outcome 500 ({ values := some [7] } : Bitbucket.PagedBody Nat)) =
      Bitbucket.FetchOutcome.http_status_error 500 :=
  ⟨(claim_C6_pr_400_special_case Nat { values := some [7] } 400).1,
    (claim_C6_pr_400_special_case Nat { values := some [7] } 400).2.1 (by omega),
    (claim_C6_pr_400_special_case Nat { values := some [7] } 500).2.2 (by omega) (by omega)⟩

namespace Bitbucket

theorem fetch_pages_spec {α : Type} (pages : Nat → List α) (ps : Nat) :
    ∀ (d start fuel : Nat),
      (∀ q, start ≤ q → q < start + d → ps ≤ (pages q).length) →
      (pages (start + d)).length < ps →
      d + 1 ≤ fuel →
      fetch_pages pages ps fuel start =
        (((List.range' start d).map pages).flatten ++ pages (start + d),
          List.range' start (d + 1)) := by
  intro d
  induction d with
  | zero =>
    intro start fuel hpre hlast hfuel
    cases fuel with
    | zero => omega
    | succ f =>
      rw [fetch_pages]
      by_cases he : (pages start).isEmpty
      · have : pages start = [] := List.isEmpty_iff.1 he
        simp [he, this]
      · have hlt : (pages start).length < ps := by simpa using hlast
        simp [he, hlt]
  | succ e ih =>
    intro start fuel hpre hlast hfuel
    cases fuel with
    | zero => omega
    | succ f =>
      rw [fetch_pages]
      have hps : 0 < ps := by omega
      have hlen : ps ≤ (pages start).length := hpre start (le_refl _) (by omega)
      have hne : ¬(pages start).isEmpty := by
        intro hcon
        have h0 := List.isEmpty_iff.1 hcon
        rw [h0] at hlen
        simp at hlen
        omega
      have hnlt : ¬((pages start).length < ps) := by omega
      simp only [hne, Bool.false_eq_true, if_false, hnlt]
      have hrec := ih (start + 1) f
        (fun q hq1 hq2 => hpre q (by omega) (by omega))
        (by have : start + 1 + e = start + (e + 1) := by omega
            rw [this]; exact hlast)
        (by omega)
      rw [hrec]
      simp only [Prod.mk.injEq]
      constructor
      · rw [List.range'_succ, List.map_cons, List.flatten_cons,
          show start + 1 + e = start + (e + 1) from by omega, List.append_assoc]
      · simp [List.range'_succ]

end Bitbucket

/-- C7: the fetch-all loops of `get_all_workspace_projects` and
`get_all_workspace_repositories` request pages 1, 2, ... with page size
100, stop at the first page `p0` holding fewer than 100 records (zero
included), never request page `p0 + 1`, and return the pages'
concatenation in order. -/
theorem claim_C7_pagination :
    ∀ (α : Type) (pages : Nat → List α) (p0 fuel : Nat),
      1 ≤ p0 →
      (∀ q, 1 ≤ q → q < p0 → 100 ≤ (pages q).length) →
      (pages p0).length < 100 →
      p0 ≤ fuel →
      Bitbucket.get_all_workspace_projects pages fuel =
        (((List.range' 1 (p0 - 1)).map pages).flatten ++ pages p0, List.range' 1 p0) ∧
      Bitbucket.get_all_workspace_repositories pages fuel =
        (((List.range' 1 (p0 - 1)).map pages).flatten ++ pages p0, List.range' 1 p0) ∧
      (p0 + 1) ∉ (Bitbucket.get_all_workspace_projects pages fuel).2 := by
  intro α pages p0 fuel hp0 hpre hlast hfuel
  obtain ⟨d, rfl⟩ : ∃ d, p0 = 1 + d := ⟨p0 - 1, by omega⟩
  have hspec := Bitbucket.fetch_pages_spec pages 100 d 1 fuel
    (fun q hq1 hq2 => hpre q hq1 (by omega)) hlast (by omega)
  have hd : 1 + d - 1 = d := by omega
  have hproj : Bitbucket.get_all_workspace_projects pages fuel =
      Bitbucket.fetch_pages pages 100 fuel 1 := rfl
  have hrepo : Bitbucket.get_all_workspace_repositories pages fuel =
      Bitbucket.fetch_pages pages 100 fuel 1 := rfl
  have hd1 : d + 1 = 1 + d := by omega
  refine ⟨by rw [hproj, hspec, hd, hd1], by rw [hrepo, hspec, hd, hd1], ?_⟩
  rw [hproj, hspec]
  simp only [List.mem_range'_1]
  omega

/-- Witness for C7: pages 1 and 2 full (100 records), page 3 holds 99;
the loop stops after page 3 and never asks for page 4. -/
theorem claim_C7_pagination_witness :
    Bitbucket.get_all_workspace_projects
        (fun p => if p ≤ 2 then List.replicate 100 p else List.replicate 99 p) 5 =
      (((List.range' 1 2).map
          (fun p => if p ≤ 2 then List.replicate 100 p else List.replicate 99 p)).flatten ++
        (if 3 ≤ 2 then List.replicate 100 3 else List.replicate 99 3), List.range' 1 3) ∧
    Bitbucket.get_all_workspace_repositories
        (fun p => if p ≤ 2 then List.replicate 100 p else List.replicate 99 p) 5 =
      (((List.range' 1 2).map
          (fun p => if p ≤ 2 then List.replicate 100 p else List.replicate 99 p)).flatten ++
        (if 3 ≤ 2 then List.replicate 100 3 else List.replicate 99 3), List.range' 1 3) ∧
    (4 : Nat) ∉ (Bitbucket.get_all_workspace_projects
        (fun p => if p ≤ 2 then List.replicate 100 p else List.replicate 99 p) 5).2 :=
  claim_C7_pagination Nat
    (fun p => if p ≤ 2 then List.replicate 100 p else List.replicate 99 p) 3 5
    (by omega)
    (fun q hq1 hq2 => by
      have hq : q ≤ 2 := by omega
      simp [hq])
    (by simp)
    (by omega)

namespace Bitbucket

/-- Number of iterations of `range(0, total, batch_size)`:
`ceil(total / batch_size)`. -/
def num_batches (batch_size total : Nat) : Nat :=
  (total + batch_size - 1) / batch_size

theorem num_batches_zero (b : Nat) (hb : 0 < b) : num_batches b 0 = 0 := by
  unfold num_batches
  have e : 0 + b - 1 = b - 1 := by omega
  rw [e, Nat.div_eq_of_lt (by omega)]

theorem num_batches_succ (b n : Nat) (hb : 0 < b) (hn : 0 < n) :
    num_batches b n = num_batches b (n - b) + 1 := by
  unfold num_batches
  rcases le_or_lt n b with h | h
  · have h1 : n - b = 0 := by omega
    have e1 : n + b - 1 = (n - 1) + b := by omega
    have e2 : 0 + b - 1 = b - 1 := by omega
    rw [h1, e1, Nat.add_div_right _ hb, Nat.div_eq_of_lt (by omega), e2,
      Nat.div_eq_of_lt (by omega)]
  · have e1 : n + b - 1 = ((n - b) + b - 1) + b := by omega
    rw [e1, Nat.add_div_right _ hb]

theorem num_batches_pos (b n : Nat) (hb : 0 < b) (hn : 0 < n) :
    0 < num_batches b n := by
  unfold num_batches
  exact (Nat.one_le_div_iff hb).2 (by omega)

theorem length_filter_split {α : Type} (p : α → Bool) (l : List α) :
    (l.filter p).length + (l.filter (fun a => !p a)).length = l.length := by
  induction l with
  | nil => rfl
  | cons x xs ih =>
    by_cases h : p x <;> simp [List.filter_cons, h, ← ih] <;> omega

theorem sync_batches_repositories_spec {α : Type} (ok : α → Bool) (b : Nat)
    (hb : 0 < b) :
    ∀ (l : List α),
      (sync_batches_repositories ok b l).attempted = l ∧
      (sync_batches_repositories ok b l).ok_count = (l.filter ok).length ∧
      (sync_batches_repositories ok b l).fail_count =
        (l.filter (fun a => !ok a)).length ∧
      (sync_batches_repositories ok b l).sleep_count = num_batches b l.length := by
  have main : ∀ (N : Nat) (l : List α), l.length ≤ N →
      (sync_batches_repositories ok b l).attempted = l ∧
      (sync_batches_repositories ok b l).ok_count = (l.filter ok).length ∧
      (sync_batches_repositories ok b l).fail_count =
        (l.filter (fun a => !ok a)).length ∧
      (sync_batches_repositories ok b l).sleep_count = num_batches b l.length := by
    intro N
    induction N with
    | zero =>
      intro l hl
      have h0 : l = [] := List.eq_nil_of_length_eq_zero (by omega)
      subst h0
      simp [sync_batches_repositories, num_batches_zero b hb]
    | succ N ih =>
      intro l hl
      match l with
      | [] => simp [sync_batches_repositories, num_batches_zero b hb]
      | x :: xs =>
        rw [sync_batches_repositories]
        have hdl : (xs.drop (b - 1)).length ≤ N := by
          simp only [List.length_drop]
          simp at hl
          omega
        obtain ⟨iha, iho, ihf, ihs⟩ := ih (xs.drop (b - 1)) hdl
        refine ⟨?_, ?_, ?_, ?_⟩
        · simp only [iha]
          rw [List.cons_append, List.take_append_drop]
        · simp only [iho]
          rw [← List.length_append, ← List.filter_append, List.cons_append,
            List.take_append_drop]
        · simp only [ihf]
          rw [← List.length_append, ← List.filter_append, List.cons_append,
            List.take_append_drop]
        · rw [ihs]
          have e1 : (List.drop (b - 1) xs).length = xs.length + 1 - b := by
            simp [List.length_drop]
            omega
          rw [e1, num_batches_succ b (x :: xs).length hb (by simp)]
          simp only [List.length_cons]
          omega
  exact fun l => main l.length l (le_refl _)

theorem sync_batches_projects_spec {α : Type} (ok : α → Bool) (b : Nat)
    (hb : 0 < b) :
    ∀ (l : List α),
      (sync_batches_projects ok b l).attempted = l ∧
      (sync_batches_projects ok b l).ok_count = (l.filter ok).length ∧
      (sync_batches_projects ok b l).fail_count =
        (l.filter (fun a => !ok a)).length ∧
      (sync_batches_projects ok b l).sleep_count = num_batches b l.length - 1 := by
  have main : ∀ (N : Nat) (l : List α), l.length ≤ N →
      (sync_batches_projects ok b l).attempted = l ∧
      (sync_batches_projects ok b l).ok_count = (l.filter ok).length ∧
      (sync_batches_projects ok b l).fail_count =
        (l.filter (fun a => !ok a)).length ∧
      (sync_batches_projects ok b l).sleep_count = num_batches b l.length - 1 := by
    intro N
    induction N with
    | zero =>
      intro l hl
      have h0 : l = [] := List.eq_nil_of_length_eq_zero (by omega)
      subst h0
      simp [sync_batches_projects, num_batches_zero b hb]
    | succ N ih =>
      intro l hl
      match l with
      | [] => simp [sync_batches_projects, num_batches_zero b hb]
      | x :: xs =>
        rw [sync_batches_projects]
        have hdl : (xs.drop (b - 1)).length ≤ N := by
          simp only [List.length_drop]
          simp at hl
          omega
        obtain ⟨iha, iho, ihf, ihs⟩ := ih (xs.drop (b - 1)) hdl
        refine ⟨?_, ?_, ?_, ?_⟩
        · simp only [iha]
          rw [List.cons_append, List.take_append_drop]
        · simp only [iho]
          rw [← List.length_append, ← List.filter_append, List.cons_append,
            List.take_append_drop]
        · simp only [ihf]
          rw [← List.length_append, ← List.filter_append, List.cons_append,
            List.take_append_drop]
        · rw [ihs]
          rw [num_batches_succ b (x :: xs).length hb (by simp)]
          have e2 : (List.drop (b - 1) xs).length = xs.length - (b - 1) :=
            List.length_drop _ _
          have he : (x :: xs).length - b = xs.length - (b - 1) := by
            simp
            omega
          rw [e2, he]
          by_cases hemp : (xs.drop (b - 1)).isEmpty
          · have h0 : xs.length - (b - 1) = 0 := by
              have h1 := List.isEmpty_iff.1 hemp
              have h2 := congrArg List.length h1
              simpa [List.length_drop] using h2
            simp only [hemp, if_true, h0, num_batches_zero b hb]
          · have h0 : 0 < xs.length - (b - 1) := by
              rcases Nat.eq_zero_or_pos (xs.length - (b - 1)) with h | h
              · exfalso
                apply hemp
                apply List.isEmpty_iff.2
                apply List.eq_nil_of_length_eq_zero
                simp [List.length_drop, h]
              · exact h
            have hpos := num_batches_pos b (xs.length - (b - 1)) hb h0
            simp only [hemp, Bool.false_eq_true, if_false]
            omega
  exact fun l => main l.length l (le_refl _)

end Bitbucket

/-- C8 counterexample: on a single-item list (one chunk only)
`sync_workspace_repositories` sleeps once — its `await asyncio.sleep(1)`
runs after every chunk, the last included — where the claimed
between-chunks-only policy gives zero sleeps (as `sync_workspace_projects`,
which guards the sleep with `if i + batch_size < total`, indeed shows on
the same input). -/
theorem claim_C8_batch_sleep_counterexample :
    (Bitbucket.sync_workspace_repositories (fun _ : Nat => true) [0] 10).map
        (fun s => s.sleep_count) = some 1 ∧
    (Bitbucket.sync_workspace_projects (fun _ : Nat => true) [0] 10).map
        (fun s => s.sleep_count) = some 0 := by
  have h1 := (Bitbucket.sync_batches_repositories_spec (fun _ : Nat => true) 10
    (by omega) [0]).2.2.2
  have h2 := (Bitbucket.sync_batches_projects_spec (fun _ : Nat => true) 10
    (by omega) [0]).2.2.2
  unfold Bitbucket.sync_workspace_repositories Bitbucket.sync_workspace_projects
  rw [if_neg (by omega : ¬(10 = 0)), if_neg (by omega : ¬(10 = 0))]
  simp only [Option.map_some', Option.some.injEq]
  rw [h1, h2]
  constructor
  · decide
  · decide

/-- C8 (amended): both batch-sync loops partition the item list into
chunks of `batchSize` and attempt every item sequentially in list order;
`sync_workspace_projects` sleeps 1 second between consecutive chunks and
not after the last (`ceil(n / batchSize) - 1` sleeps), while
`sync_workspace_repositories` sleeps 1 second after every chunk,
including the last (`ceil(n / batchSize)` sleeps). -/
theorem claim_C8_batch_sleep_amended :
    ∀ (α : Type) (ok : α → Bool) (items : List α) (b : Nat), 0 < b →
      (Bitbucket.sync_workspace_repositories ok items b).map
          (fun s => s.attempted) = some items ∧
      (Bitbucket.sync_workspace_repositories ok items b).map
          (fun s => s.sleep_count) = some (Bitbucket.num_batches b items.length) ∧
      (Bitbucket.sync_workspace_projects ok items b).map
          (fun s => s.attempted) = some items ∧
      (Bitbucket.sync_workspace_projects ok items b).map
          (fun s => s.sleep_count) =
        some (Bitbucket.num_batches b items.length - 1) := by
  intro α ok items b hb
  have hbne : ¬(b = 0) := by omega
  obtain ⟨hra, _, _, hrs⟩ := Bitbucket.sync_batches_repositories_spec ok b hb items
  obtain ⟨hpa, _, _, hps⟩ := Bitbucket.sync_batches_projects_spec ok b hb items
  unfold Bitbucket.sync_workspace_repositories Bitbucket.sync_workspace_projects
  simp only [hbne, if_false, Option.map_some', Option.some.injEq]
  exact ⟨hra, hrs, hpa, hps⟩

/-- Witness for the amended C8: ten items in chunks of 4 give three
chunks; the repositories variant sleeps 3 times, the projects variant
2. -/
theorem claim_C8_batch_sleep_amended_witness :
    (Bitbucket.sync_workspace_repositories (fun n : Nat => !(n == 3 || n == 7))
        [1, 2, 3, 4, 5, 6, 7, 8, 9, 10] 4).map
        (fun s => s.attempted) = some [1, 2, 3, 4, 5, 6, 7, 8, 9, 10] ∧
    (Bitbucket.sync_workspace_repositories (fun n : Nat => !(n == 3 || n == 7))
        [1, 2, 3, 4, 5, 6, 7, 8, 9, 10] 4).map
        (fun s => s.sleep_count) =
      some (Bitbucket.num_batches 4 [1, 2, 3, 4, 5, 6, 7, 8, 9, 10].length) ∧
    (Bitbucket.sync_workspace_projects (fun n : Nat => !(n == 3 || n == 7))
        [1, 2, 3, 4, 5, 6, 7, 8, 9, 10] 4).map
        (fun s => s.attempted) = some [1, 2, 3, 4, 5, 6, 7, 8, 9, 10] ∧
    (Bitbucket.sync_workspace_projects (fun n : Nat => !(n == 3 || n == 7))
        [1, 2, 3, 4, 5, 6, 7, 8, 9, 10] 4).map
        (fun s => s.sleep_count) =
      some (Bitbucket.num_batches 4 [1, 2, 3, 4, 5, 6, 7, 8, 9, 10].length - 1) :=
  claim_C8_batch_sleep_amended Nat (fun n : Nat => !(n == 3 || n == 7))
    [1, 2, 3, 4, 5, 6, 7, 8, 9, 10] 4 (by omega)

/-- C9: in a `sync_workspace_repositories` run every item of the input
list is attempted exactly once and in order (a failing upsert is caught
and counted, aborting nothing), the final summary satisfies
`total = successful + failed`, and
`successRate = successful / total * 100` (0 when the total is 0). -/
theorem claim_C9_batch_resilience :
    ∀ (α : Type) (ok : α → Bool) (items : List α) (b : Nat), 0 < b →
      ∃ s, Bitbucket.sync_workspace_repositories ok items b = some s ∧
        s.attempted = items ∧
        s.successful_syncs = (items.filter ok).length ∧
        s.failed_syncs = (items.filter (fun a => !ok a)).length ∧
        s.successful_syncs + s.failed_syncs = s.total ∧
        s.total = items.length ∧
        s.success_rate = (if 0 < items.length then
          ((items.filter ok).length : Rat) / (items.length : Rat) * 100 else 0) := by
  intro α ok items b hb
  have hbne : ¬(b = 0) := by omega
  obtain ⟨hra, hro, hrf, _⟩ := Bitbucket.sync_batches_repositories_spec ok b hb items
  refine ⟨_, by unfold Bitbucket.sync_workspace_repositories; rw [if_neg hbne], ?_, ?_, ?_, ?_, ?_, ?_⟩
  · exact hra
  · exact hro
  · exact hrf
  · rw [hro, hrf, Bitbucket.length_filter_split]
  · rfl
  · rw [hro]

/-- Witness for C9: the P8 scenario — ten items where items 3 and 7
fail. -/
theorem claim_C9_batch_resilience_witness :
    ∃ s, Bitbucket.sync_workspace_repositories (fun n : Nat => !(n == 3 || n == 7))
        [1, 2, 3, 4, 5, 6, 7, 8, 9, 10] 5 = some s ∧
      s.attempted = [1, 2, 3, 4, 5, 6, 7, 8, 9, 10] ∧
      s.successful_syncs = ([1, 2, 3, 4, 5, 6, 7, 8, 9, 10].filter
        (fun n : Nat => !(n == 3 || n == 7))).length ∧
      s.failed_syncs = ([1, 2, 3, 4, 5, 6, 7, 8, 9, 10].filter
        (fun a : Nat => !(!(a == 3 || a == 7)))).length ∧
      s.successful_syncs + s.failed_syncs = s.total ∧
      s.total = [1, 2, 3, 4, 5, 6, 7, 8, 9, 10].length ∧
      s.success_rate = (if 0 < [1, 2, 3, 4, 5, 6, 7, 8, 9, 10].length then
        ((([1, 2, 3, 4, 5, 6, 7, 8, 9, 10].filter
            (fun n : Nat => !(n == 3 || n == 7))).length : Nat) : Rat) /
          (([1, 2, 3, 4, 5, 6, 7, 8, 9, 10].length : Nat) : Rat) * 100 else 0) :=
  claim_C9_batch_resilience Nat (fun n : Nat => !(n == 3 || n == 7))
    [1, 2, 3, 4, 5, 6, 7, 8, 9, 10] 5 (by omega)

namespace Linker

theorem pySplit_ne_nil (sep : Char) (s : List Char) : pySplit sep s ≠ [] := by
  cases s with
  | nil => simp [pySplit]
  | cons c cs =>
    rw [pySplit]
    by_cases h : c = sep
    · simp [h]
    · simp only [h, if_false]
      cases hr : pySplit sep cs with
      | nil => simp
      | cons r rs => simp

theorem pySplit_of_not_contains (sep : Char) (s : List Char)
    (h : s.contains sep = false) : pySplit sep s = [s] := by
  induction s with
  | nil => rfl
  | cons c cs ih =>
    simp only [List.contains_cons, Bool.or_eq_false_iff, beq_eq_false_iff_ne] at h
    rw [pySplit]
    have hc : ¬(c = sep) := fun hcc => h.1 hcc.symm
    simp only [hc, if_false]
    rw [ih h.2]

theorem pySplit_length (sep : Char) (s : List Char) :
    (pySplit sep s).length = s.count sep + 1 := by
  induction s with
  | nil => simp [pySplit]
  | cons c cs ih =>
    rw [pySplit]
    by_cases h : c = sep
    · subst h
      simp [List.count_cons, ih]
    · simp only [h, if_false]
      cases hr : pySplit sep cs with
      | nil => exact absurd hr (pySplit_ne_nil sep cs)
      | cons r rs =>
        rw [hr] at ih
        simp only [List.length_cons] at ih ⊢
        rw [List.count_cons]
        simp [h, Ne.symm h, ih]

theorem getLastD_cons_of_ne_nil {α : Type} (d a : α) (l : List α) (h : l ≠ []) :
    (a :: l).getLast?.getD d = l.getLast?.getD d := by
  cases l with
  | nil => exact absurd rfl h
  | cons x xs => rw [List.getLast?_cons_cons]

theorem contains_cons_false {c a : Char} {cs : List Char}
    (h : (c :: cs).contains a = false) : ¬(c = a) ∧ cs.contains a = false := by
  have h2 : ((a == c) || cs.contains a) = false := h
  simp only [Bool.or_eq_false_iff, beq_eq_false_iff_ne] at h2
  exact ⟨fun he => h2.1 he.symm, h2.2⟩

theorem after_last_colon_of_not_contains (s : List Char)
    (h : s.contains ':' = false) : after_last_colon s = s := by
  induction s with
  | nil => rfl
  | cons c cs ih =>
    obtain ⟨hc, h2⟩ := contains_cons_false h
    rw [after_last_colon, h2]
    simp only [Bool.false_eq_true, if_false]
    rw [if_neg hc]

theorem pySplit_getLast (s : List Char) :
    (pySplit ':' s).getLast?.getD [] = after_last_colon s := by
  induction s with
  | nil => rfl
  | cons c cs ih =>
    rw [pySplit, after_last_colon]
    by_cases h : c = ':'
    · subst h
      simp only [if_true]
      rw [getLastD_cons_of_ne_nil [] [] (pySplit ':' cs) (pySplit_ne_nil ':' cs), ih]
      by_cases hcs : cs.contains ':'
      · simp [List.elem_iff.1 hcs]
      · simp only [Bool.not_eq_true] at hcs
        rw [hcs]
        simp only [Bool.false_eq_true, if_false]
        exact after_last_colon_of_not_contains cs hcs
    · simp only [h, if_false]
      cases hr : pySplit ':' cs with
      | nil => exact absurd hr (pySplit_ne_nil ':' cs)
      | cons r rs =>
        cases rs with
        | nil =>
          have hnc : cs.contains ':' = false := by
            by_contra hcon
            simp only [Bool.not_eq_false] at hcon
            have hl := pySplit_length ':' cs
            rw [hr] at hl
            simp only [List.length_cons, List.length_nil] at hl
            have hm : ':' ∈ cs := List.elem_iff.1 hcon
            have : 1 ≤ cs.count ':' := List.one_le_count_iff.2 hm
            omega
          have hrr : r = cs := by
            have h0 := pySplit_of_not_contains ':' cs hnc
            rw [hr] at h0
            simpa using h0
          subst hrr
          have hnm : ':' ∉ r := fun hm => by
            have h2 : r.contains ':' = true := List.elem_iff.2 hm
            rw [hnc] at h2
            exact Bool.false_ne_true h2
          simp [hnm, h]
        | cons r2 rs2 =>
          have hcc : cs.contains ':' = true := by
            by_contra hcon
            simp only [Bool.not_eq_true] at hcon
            have h0 := pySplit_of_not_contains ':' cs hcon
            rw [hr] at h0
            simp at h0
          rw [hcc]
          simp only [if_true]
          rw [← ih, hr]
          rw [List.getLast?_cons_cons, List.getLast?_cons_cons]

theorem after_last_colon_split (s : List Char) (h : s.contains ':' = true) :
    ∃ pre, s = pre ++ ':' :: after_last_colon s ∧
      (after_last_colon s).contains ':' = false := by
  induction s with
  | nil => simp [List.contains] at h
  | cons c cs ih =>
    rw [after_last_colon]
    by_cases hcs : cs.contains ':'
    · obtain ⟨pre, hpre, hnc⟩ := ih hcs
      rw [hcs]
      simp only [if_true]
      exact ⟨c :: pre, by rw [List.cons_append, ← hpre], hnc⟩
    · simp only [Bool.not_eq_true] at hcs
      have hc : c = ':' := by
        have h2 : ((':' == c) || cs.contains ':') = true := h
        rcases Bool.or_eq_true_iff.1 h2 with h3 | h3
        · exact (beq_iff_eq.1 h3).symm
        · rw [h3] at hcs; simp at hcs
      rw [hcs]
      simp only [Bool.false_eq_true, if_false]
      rw [if_pos hc]
      exact ⟨[], by simp [hc], hcs⟩

end Linker

namespace Linker

/-- The first row with key `k` (if any) is linked to `rid`; vacuously
true when no row has that key. -/
def first_link_is (k : List Char) (rid : Nat) : List SCProject → Bool
  | [] => true
  | p :: ps =>
    if p.key = k then p.bitbucket_repository_id == some rid
    else first_link_is k rid ps

theorem update_first_keys (k : List Char) (rid : Nat) (l : List SCProject) :
    (update_first k rid l).1.map SCProject.key = l.map SCProject.key := by
  induction l with
  | nil => rfl
  | cons p ps ih =>
    rw [update_first]
    by_cases h : p.key = k
    · by_cases h2 : p.bitbucket_repository_id = some rid
      · simp [h, h2]
      · simp [h, h2]
    · simp only [h, if_false, List.map_cons]
      rw [ih]

theorem update_first_establishes (k : List Char) (rid : Nat) (l : List SCProject) :
    first_link_is k rid (update_first k rid l).1 = true := by
  induction l with
  | nil => rfl
  | cons p ps ih =>
    rw [update_first]
    by_cases h : p.key = k
    · by_cases h2 : p.bitbucket_repository_id = some rid
      · simp [h, h2, first_link_is]
      · simp [h, h2, first_link_is]
    · simp only [h, if_false]
      rw [first_link_is]
      simp only [h, if_false]
      exact ih

theorem update_first_noop (k : List Char) (rid : Nat) (l : List SCProject)
    (h : first_link_is k rid l = true) : update_first k rid l = (l, 0) := by
  induction l with
  | nil => rfl
  | cons p ps ih =>
    rw [first_link_is] at h
    rw [update_first]
    by_cases hk : p.key = k
    · simp only [hk, if_true] at h ⊢
      rw [if_pos (beq_iff_eq.1 h)]
    · simp only [hk, if_false] at h ⊢
      rw [ih h]

theorem update_first_frame (k k2 : List Char) (rid rid2 : Nat) (l : List SCProject)
    (hne : k2 ≠ k) :
    first_link_is k rid (update_first k2 rid2 l).1 = first_link_is k rid l := by
  induction l with
  | nil => rfl
  | cons p ps ih =>
    rw [update_first]
    by_cases hk : p.key = k2
    · have hpk : ¬(p.key = k) := fun hcc => hne (hk ▸ hcc)
      by_cases h2 : p.bitbucket_repository_id = some rid2
      · rw [if_pos hk, if_pos h2]
      · rw [if_pos hk, if_neg h2]
        show first_link_is k rid ({ p with bitbucket_repository_id := some rid2 } :: ps) =
          first_link_is k rid (p :: ps)
        rw [first_link_is, first_link_is]
        rw [if_neg (show ¬(({ p with bitbucket_repository_id := some rid2 } :
          SCProject).key = k) from hpk), if_neg hpk]
    · rw [if_neg hk]
      show first_link_is k rid (p :: (update_first k2 rid2 ps).1) =
        first_link_is k rid (p :: ps)
      rw [first_link_is, first_link_is]
      by_cases hpk : p.key = k
      · rw [if_pos hpk, if_pos hpk]
      · rw [if_neg hpk, if_neg hpk]
        exact ih

theorem update_first_mem (k : List Char) (rid : Nat) (l : List SCProject) :
    ∀ q ∈ (update_first k rid l).1,
      q ∈ l ∨ (q.key = k ∧ q.bitbucket_repository_id = some rid) := by
  induction l with
  | nil => intro q hq; exact absurd hq (by simp [update_first])
  | cons p ps ih =>
    intro q hq
    rw [update_first] at hq
    by_cases hk : p.key = k
    · by_cases h2 : p.bitbucket_repository_id = some rid
      · simp only [hk, h2, if_true] at hq
        exact Or.inl hq
      · simp only [hk, h2, if_true, if_false, List.mem_cons] at hq
        rcases hq with hq | hq
        · subst hq
          exact Or.inr ⟨by simp [hk], rfl⟩
        · exact Or.inl (List.mem_cons_of_mem p hq)
    · simp only [hk, if_false, List.mem_cons] at hq
      rcases hq with hq | hq
      · exact Or.inl (by rw [hq]; exact List.mem_cons_self p ps)
      · rcases ih q hq with h3 | h3
        · exact Or.inl (List.mem_cons_of_mem p h3)
        · exact Or.inr h3

end Linker

namespace Linker

theorem update_first_preserves (k k2 : List Char) (rid : Nat) (l : List SCProject)
    (h : first_link_is k rid l = true) :
    first_link_is k rid (update_first k2 rid l).1 = true := by
  by_cases he : k2 = k
  · subst he
    exact update_first_establishes k2 rid l
  · rw [update_first_frame k k2 rid rid l he]
    exact h

theorem process_keys_keys (rid : Nat) :
    ∀ (ks : List (List Char)) (l : List SCProject),
      (process_keys rid ks l).1.map SCProject.key = l.map SCProject.key := by
  intro ks
  induction ks with
  | nil => intro l; rfl
  | cons k0 ks ih =>
    intro l
    rw [process_keys]
    rw [ih (update_first k0 rid l).1, update_first_keys]

theorem process_keys_preserves (k : List Char) (rid : Nat) :
    ∀ (ks : List (List Char)) (l : List SCProject),
      first_link_is k rid l = true →
      first_link_is k rid (process_keys rid ks l).1 = true := by
  intro ks
  induction ks with
  | nil => intro l h; exact h
  | cons k0 ks ih =>
    intro l h
    rw [process_keys]
    exact ih (update_first k0 rid l).1 (update_first_preserves k k0 rid l h)

theorem process_keys_establishes (rid : Nat) :
    ∀ (ks : List (List Char)) (l : List SCProject), ∀ k ∈ ks,
      first_link_is k rid (process_keys rid ks l).1 = true := by
  intro ks
  induction ks with
  | nil => intro l k hk; exact absurd hk (List.not_mem_nil k)
  | cons k0 ks ih =>
    intro l k hk
    rw [process_keys]
    rcases List.mem_cons.1 hk with hk | hk
    · subst hk
      exact process_keys_preserves k rid ks _ (update_first_establishes k rid l)
    · exact ih _ k hk

theorem process_keys_noop (rid : Nat) :
    ∀ (ks : List (List Char)) (l : List SCProject),
      (∀ k ∈ ks, first_link_is k rid l = true) →
      process_keys rid ks l = (l, 0) := by
  intro ks
  induction ks with
  | nil => intro l _; rfl
  | cons k0 ks ih =>
    intro l h
    rw [process_keys]
    rw [update_first_noop k0 rid l (h k0 (List.mem_cons_self k0 ks))]
    rw [ih l (fun k hk => h k (List.mem_cons_of_mem k0 hk))]
    rfl

theorem process_keys_frame (k : List Char) (rid rid2 : Nat) :
    ∀ (ks : List (List Char)) (l : List SCProject),
      (∀ k2 ∈ ks, k2 ≠ k) →
      first_link_is k rid (process_keys rid2 ks l).1 = first_link_is k rid l := by
  intro ks
  induction ks with
  | nil => intro l _; rfl
  | cons k0 ks ih =>
    intro l h
    rw [process_keys]
    rw [ih _ (fun k2 hk2 => h k2 (List.mem_cons_of_mem k0 hk2)),
      update_first_frame k k0 rid rid2 l (h k0 (List.mem_cons_self k0 ks))]

theorem process_keys_mem (rid : Nat) :
    ∀ (ks : List (List Char)) (l : List SCProject),
      ∀ q ∈ (process_keys rid ks l).1,
        q ∈ l ∨ (q.key ∈ ks ∧ q.bitbucket_repository_id = some rid) := by
  intro ks
  induction ks with
  | nil => intro l q hq; exact Or.inl hq
  | cons k0 ks ih =>
    intro l q hq
    rw [process_keys] at hq
    rcases ih _ q hq with h1 | h1
    · rcases update_first_mem k0 rid l q h1 with h2 | h2
      · exact Or.inl h2
      · exact Or.inr ⟨h2.1 ▸ List.mem_cons_self k0 ks, h2.2⟩
    · exact Or.inr ⟨List.mem_cons_of_mem k0 h1.1, h1.2⟩

end Linker

namespace Linker

theorem link_repos_keys (g : List Char → List (List Char)) :
    ∀ (rs : List BBRepo) (l : List SCProject),
      (link_repos g rs l).1.map SCProject.key = l.map SCProject.key := by
  intro rs
  induction rs with
  | nil => intro l; rfl
  | cons r rs ih =>
    intro l
    rw [link_repos]
    rw [ih, process_keys_keys]

theorem link_repos_frame (g : List Char → List (List Char)) (k : List Char)
    (rid : Nat) :
    ∀ (rs : List BBRepo) (l : List SCProject),
      (∀ r2 ∈ rs, k ∉ g r2.slug) →
      first_link_is k rid (link_repos g rs l).1 = first_link_is k rid l := by
  intro rs
  induction rs with
  | nil => intro l _; rfl
  | cons r rs ih =>
    intro l h
    rw [link_repos]
    rw [ih _ (fun r2 hr2 => h r2 (List.mem_cons_of_mem r hr2)),
      process_keys_frame k rid r.rid (g r.slug) l
        (fun k2 hk2 => fun he => h r (List.mem_cons_self r rs) (he ▸ hk2))]

theorem link_repos_post (g : List Char → List (List Char)) :
    ∀ (rs : List BBRepo) (l : List SCProject),
      rs.Pairwise (fun r1 r2 => ∀ k, k ∈ g r1.slug → k ∈ g r2.slug → False) →
      ∀ r ∈ rs, ∀ k ∈ g r.slug,
        first_link_is k r.rid (link_repos g rs l).1 = true := by
  intro rs
  induction rs with
  | nil => intro l _ r hr; exact absurd hr (List.not_mem_nil r)
  | cons r0 rs ih =>
    intro l hp r hr k hk
    rw [link_repos]
    rcases List.mem_cons.1 hr with hr | hr
    · subst hr
      have hfr : ∀ r2 ∈ rs, k ∉ g r2.slug := by
        intro r2 hr2 hk2
        exact (List.pairwise_cons.1 hp).1 r2 hr2 k hk hk2
      rw [link_repos_frame g k r.rid rs _ hfr]
      exact process_keys_establishes r.rid (g r.slug) l k hk
    · exact ih _ (List.pairwise_cons.1 hp).2 r hr k hk

theorem link_repos_noop (g : List Char → List (List Char)) :
    ∀ (rs : List BBRepo) (l : List SCProject),
      (∀ r ∈ rs, ∀ k ∈ g r.slug, first_link_is k r.rid l = true) →
      link_repos g rs l = (l, 0) := by
  intro rs
  induction rs with
  | nil => intro l _; rfl
  | cons r rs ih =>
    intro l h
    rw [link_repos]
    rw [process_keys_noop r.rid (g r.slug) l (h r (List.mem_cons_self r rs))]
    rw [ih l (fun r2 hr2 => h r2 (List.mem_cons_of_mem r hr2))]
    rfl

theorem link_repos_mem (g : List Char → List (List Char)) :
    ∀ (rs : List BBRepo) (l : List SCProject),
      ∀ q ∈ (link_repos g rs l).1,
        q ∈ l ∨ ∃ r ∈ rs, q.key ∈ g r.slug ∧ q.bitbucket_repository_id = some r.rid := by
  intro rs
  induction rs with
  | nil => intro l q hq; exact Or.inl hq
  | cons r rs ih =>
    intro l q hq
    rw [link_repos] at hq
    rcases ih _ q hq with h1 | h1
    · rcases process_keys_mem r.rid (g r.slug) l q h1 with h2 | h2
      · exact Or.inl h2
      · exact Or.inr ⟨r, List.mem_cons_self r rs, h2.1, h2.2⟩
    · obtain ⟨r2, hr2, hk2, hl2⟩ := h1
      exact Or.inr ⟨r2, List.mem_cons_of_mem r hr2, hk2, hl2⟩

theorem mem_key_group {keys : List (List Char)} {slug k : List Char}
    (h : k ∈ key_group keys slug) :
    extract_repository_name_from_sonarcloud_key k = some slug := by
  unfold key_group at h
  exact of_decide_eq_true (List.mem_filter.1 h).2

end Linker

/-- C10: `extract_repository_name_from_sonarcloud_key` returns exactly
the substring after the last colon when the key contains one (the
returned suffix contains no further colon) and `None` otherwise; the
linker changes a row's `bitbucket_repository_id` only to the id of a
repository whose slug equals that extracted substring verbatim; and
re-running the linker on its own output (with pairwise-distinct
repository slugs, as the unique-slug schema provides) updates zero
rows and leaves the rows unchanged. -/
theorem claim_C10_linker :
    (∀ key : List Char, key.contains ':' = false →
      Linker.extract_repository_name_from_sonarcloud_key key = none) ∧
    (∀ key : List Char, key.contains ':' = true →
      Linker.extract_repository_name_from_sonarcloud_key key =
        some (Linker.after_last_colon key) ∧
      ∃ pre, key = pre ++ ':' :: Linker.after_last_colon key ∧
        (Linker.after_last_colon key).contains ':' = false) ∧
    (∀ (repos : List Linker.BBRepo) (projs : List Linker.SCProject),
      ∀ q ∈ (Linker.link_sonarcloud_bitbucket repos projs).1,
        q ∈ projs ∨ ∃ r ∈ repos,
          Linker.extract_repository_name_from_sonarcloud_key q.key = some r.slug ∧
          q.bitbucket_repository_id = some r.rid) ∧
    (∀ (repos : List Linker.BBRepo) (projs : List Linker.SCProject),
      (repos.map Linker.BBRepo.slug).Nodup →
      Linker.link_sonarcloud_bitbucket repos
          (Linker.link_sonarcloud_bitbucket repos projs).1 =
        ((Linker.link_sonarcloud_bitbucket repos projs).1, 0)) := by
  refine ⟨?_, ?_, ?_, ?_⟩
  · intro key h
    unfold Linker.extract_repository_name_from_sonarcloud_key
    rw [h]
    simp
  · intro key h
    unfold Linker.extract_repository_name_from_sonarcloud_key
    rw [if_pos h, Linker.pySplit_getLast]
    exact ⟨rfl, Linker.after_last_colon_split key h⟩
  · intro repos projs q hq
    unfold Linker.link_sonarcloud_bitbucket at hq
    rcases Linker.link_repos_mem _ repos projs q hq with h1 | h1
    · exact Or.inl h1
    · obtain ⟨r, hr, hk, hl⟩ := h1
      exact Or.inr ⟨r, hr, Linker.mem_key_group hk, hl⟩
  · intro repos projs hnd
    have hpair : repos.Pairwise (fun r1 r2 => ∀ k,
        k ∈ Linker.key_group (projs.map Linker.SCProject.key) r1.slug →
        k ∈ Linker.key_group (projs.map Linker.SCProject.key) r2.slug → False) := by
      have h1 : repos.Pairwise (fun r1 r2 => r1.slug ≠ r2.slug) :=
        List.pairwise_map.1 hnd
      refine h1.imp ?_
      intro r1 r2 hne k hk1 hk2
      have e1 := Linker.mem_key_group hk1
      have e2 := Linker.mem_key_group hk2
      rw [e1] at e2
      exact hne (Option.some_inj.1 e2)
    unfold Linker.link_sonarcloud_bitbucket
    rw [Linker.link_repos_keys]
    apply Linker.link_repos_noop
    intro r hr k hk
    exact Linker.link_repos_post _ repos projs hpair r hr k hk

/-- Witness for C10 at concrete keys and a concrete two-repository,
three-project database state. -/
theorem claim_C10_linker_witness :
    Linker.extract_repository_name_from_sonarcloud_key ("abcdef".toList) = none ∧
    (Linker.extract_repository_name_from_sonarcloud_key ("abc:def:gh".toList) =
      some (Linker.after_last_colon ("abc:def:gh".toList)) ∧
      ∃ pre, "abc:def:gh".toList =
          pre ++ ':' :: Linker.after_last_colon ("abc:def:gh".toList) ∧
        (Linker.after_last_colon ("abc:def:gh".toList)).contains ':' = false) ∧
    (({ key := "x:r1".toList, bitbucket_repository_id := some 11 } : Linker.SCProject) ∈
        ([{ key := "x:r1".toList, bitbucket_repository_id := none },
          { key := "y:r2".toList, bitbucket_repository_id := some 5 },
          { key := "z:r3".toList, bitbucket_repository_id := none }] :
            List Linker.SCProject) ∨
      ∃ r ∈ ([{ slug := "r1".toList, rid := 11 },
          { slug := "r2".toList, rid := 22 }] : List Linker.BBRepo),
        Linker.extract_repository_name_from_sonarcloud_key
          ({ key := "x:r1".toList, bitbucket_repository_id := some 11 } :
            Linker.SCProject).key = some r.slug ∧
        ({ key := "x:r1".toList, bitbucket_repository_id := some 11 } :
          Linker.SCProject).bitbucket_repository_id = some r.rid) ∧
    Linker.link_sonarcloud_bitbucket
        [{ slug := "r1".toList, rid := 11 }, { slug := "r2".toList, rid := 22 }]
        (Linker.link_sonarcloud_bitbucket
          [{ slug := "r1".toList, rid := 11 }, { slug := "r2".toList, rid := 22 }]
          [{ key := "x:r1".toList, bitbucket_repository_id := none },
           { key := "y:r2".toList, bitbucket_repository_id := some 5 },
           { key := "z:r3".toList, bitbucket_repository_id := none }]).1 =
      ((Linker.link_sonarcloud_bitbucket
          [{ slug := "r1".toList, rid := 11 }, { slug := "r2".toList, rid := 22 }]
          [{ key := "x:r1".toList, bitbucket_repository_id := none },
           { key := "y:r2".toList, bitbucket_repository_id := some 5 },
           { key := "z:r3".toList, bitbucket_repository_id := none }]).1, 0) :=
  ⟨claim_C10_linker.1 ("abcdef".toList) (by decide),
    claim_C10_linker.2.1 ("abc:def:gh".toList) (by decide),
    claim_C10_linker.2.2.1
      [{ slug := "r1".toList, rid := 11 }, { slug := "r2".toList, rid := 22 }]
      [{ key := "x:r1".toList, bitbucket_repository_id := none },
       { key := "y:r2".toList, bitbucket_repository_id := some 5 },
       { key := "z:r3".toList, bitbucket_repository_id := none }]
      { key := "x:r1".toList, bitbucket_repository_id := some 11 } (by decide),
    claim_C10_linker.2.2.2
      [{ slug := "r1".toList, rid := 11 }, { slug := "r2".toList, rid := 22 }]
      [{ key := "x:r1".toList, bitbucket_repository_id := none },
       { key := "y:r2".toList, bitbucket_repository_id := some 5 },
       { key := "z:r3".toList, bitbucket_repository_id := none }] (by decide)⟩
